import Mathlib

/-!
Verification of the THD-DETECTOR repository core.

This file shallowly embeds the measurement and telemetry core of the
repository:

* `FFTAnalyzer::analyze` from `src/vst-plugin/Source/THDAnalyzerPlugin.h`
  (fundamental search, RMS level, harmonic extraction, THD / THD+N);
* the `THDDataMessage` MIDI SysEx codec (`toMidiBytes` / `fromMidiBytes`);
* the plugin communication methods `setChannelId`, `sendTHDDataToMaster`
  and `receiveTHDData`;
* `computeMasterTHD` from `src/lib/useAudioEngine.ts`.

Modelling conventions:

* C/C++ `float`/`double` and JS `number` arithmetic is modelled exactly over
  `ℚ`; values produced by `sqrt` live in `ℝ` (`Real.sqrt`).
* The JUCE FFT (`fft.performRealOnlyForwardTransform`) is an external
  library call; the magnitude spectrum it produces (source lines 56-71)
  is therefore an abstract input `mag : ℤ → ℚ` of `analyze`.
* `static_cast<int>` of a finite floating value is truncation toward zero
  (`ratTrunc`).  When `sampleRate = 0` the float quotients `20*N/0` and
  `2000*N/0` are infinite (or NaN for `N = 0`) and the cast is undefined
  behaviour; the bin definitions pin that cast to `INT_MIN` (its value on
  mainstream x86 codegen), so the search loop's resulting out-of-bounds
  `magnitude[INT_MIN]` access stays visible instead of being collapsed into
  a benign bin-0 search.  No theorem below asserts anything about a graceful
  return at `sampleRate = 0`.
* The fixed transform size (8192, set in the `FFTAnalyzer` constructor) is
  kept as an explicit parameter `fftSize`; `fftSizeDefault` records the
  constructed value.
-/

/-- The transform size installed by the `FFTAnalyzer` constructor. -/
def fftSizeDefault : ℕ := 8192

/-- C++ `static_cast<int>` of a floating value: truncation toward zero. -/
def ratTrunc (q : ℚ) : ℤ := if 0 ≤ q then ⌊q⌋ else ⌈q⌉

/-- The list of `len` consecutive integers starting at `lo`. -/
def intRange (lo : ℤ) (len : ℕ) : List ℤ := (List.range len).map fun k => lo + (k : ℤ)

/-- The bins visited by the fundamental-search loop
`for (i = minBin; i <= maxBin && i < fftSize/2; i++)`. -/
def searchIndices (minBin maxBin half : ℤ) : List ℤ :=
  intRange minBin (min maxBin (half - 1) + 1 - minBin).toNat

/-- Source lines 77-85: running maximum with a strictly-greater comparison,
starting from `maxMag = 0`, `fundamentalBin = 0`.  Returns
`(maxMag, fundamentalBin)`. -/
def fundamentalSearch (mag : ℤ → ℚ) (minBin maxBin half : ℤ) : ℚ × ℤ :=
  (searchIndices minBin maxBin half).foldl
    (fun acc i => if mag i > acc.1 then (mag i, i) else acc) (0, 0)

/-- Source lines 98-108: the harmonic loop `for (h = 2; h <= 8; h++)`.
Builds the `harmonics` vector (initialised to seven zeros) and accumulates
`harmonicSum`.  The bin test in the source is only `harmonicBin < fftSize/2`;
there is no lower bound. -/
def harmonicPass (mag : ℤ → ℚ) (fundamentalFrequency sampleRate : ℚ) (fftSize : ℕ) :
    List ℚ × ℚ :=
  (List.range' 2 7).foldl
    (fun acc (h : ℕ) =>
      let harmonicBin : ℤ := ratTrunc ((h : ℚ) * fundamentalFrequency * fftSize / sampleRate)
      if harmonicBin < ((fftSize / 2 : ℕ) : ℤ) then
        (acc.1.set (h - 2) (mag harmonicBin), acc.2 + mag harmonicBin * mag harmonicBin)
      else acc)
    (List.replicate 7 0, 0)

/-- Source lines 119-133: a bin is excluded from the noise estimate when it is
within 10 bins of `harmonicBin(h)` for some `h` in 1..8. -/
def isHarmonicRegion (fundamentalFrequency sampleRate : ℚ) (fftSize : ℕ) (i : ℤ) : Bool :=
  (List.range' 1 8).any fun h =>
    (i - ratTrunc ((h : ℚ) * fundamentalFrequency * fftSize / sampleRate)).natAbs < 10

/-- Source lines 115-133: accumulate `noiseSum` and `noiseBins` over the bins
`[minBin, fftSize/2)` that are not in a harmonic region. -/
def noisePass (mag : ℤ → ℚ) (fundamentalFrequency sampleRate : ℚ) (fftSize : ℕ)
    (minBin : ℤ) : ℚ × ℕ :=
  (intRange minBin (((fftSize / 2 : ℕ) : ℤ) - minBin).toNat).foldl
    (fun acc i =>
      if isHarmonicRegion fundamentalFrequency sampleRate fftSize i then acc
      else (acc.1 + mag i * mag i, acc.2 + 1))
    (0, 0)

/-- Source line 90-93: `sumSquares += audioBuffer[i]*audioBuffer[i]` over the
whole host buffer. -/
def sumSquares (audioBuffer : ℕ → ℚ) (bufferSize : ℕ) : ℚ :=
  (List.range bufferSize).foldl (fun acc i => acc + audioBuffer i * audioBuffer i) 0

/-- `FFTAnalyzer::AnalysisResult` (source lines 38-45).  Fields produced by
`std::sqrt` are real-valued. -/
structure AnalysisResult where
  fundamentalFrequency : ℚ
  thd : ℝ
  thdN : ℝ
  level : ℝ
  harmonics : List ℚ
  noiseFloor : ℝ

/-- `INT_MIN` of a 32-bit `int`: what `static_cast<int>` of an infinite (or
NaN) float produces on mainstream x86 codegen.  The cast itself is undefined
behaviour in C++. -/
def intMin32 : ℤ := -2147483648

/-- The local `minBin` of `analyze` (source line 74),
`static_cast<int>(20.0f * fftSize / sampleRate)`.  For `sampleRate = 0` the
float quotient is infinite (NaN when `fftSize = 0`) and the cast is undefined
behaviour, pinned here to `INT_MIN`; the search loop then runs its single
iteration at index `INT_MIN`, i.e. reads `magnitude[INT_MIN]` far outside the
spectrum - a crash path in the real program, which a total model can only
expose, not reproduce. -/
def minBinOf (fftSize : ℕ) (sampleRate : ℚ) : ℤ :=
  if sampleRate = 0 then intMin32 else ratTrunc (20 * (fftSize : ℚ) / sampleRate)

/-- The local `maxBin` of `analyze` (source line 75),
`static_cast<int>(2000.0f * fftSize / sampleRate)`; division by zero handled
exactly as in `minBinOf`. -/
def maxBinOf (fftSize : ℕ) (sampleRate : ℚ) : ℤ :=
  if sampleRate = 0 then intMin32 else ratTrunc (2000 * (fftSize : ℚ) / sampleRate)

/-- The `(maxMag, fundamentalBin)` pair computed by the loop at source
lines 77-85. -/
def searchOf (mag : ℤ → ℚ) (fftSize : ℕ) (sampleRate : ℚ) : ℚ × ℤ :=
  fundamentalSearch mag (minBinOf fftSize sampleRate) (maxBinOf fftSize sampleRate)
    ((fftSize / 2 : ℕ) : ℤ)

/-- `result.fundamentalFrequency = fundamentalBin * sampleRate / fftSize`
(source line 87). -/
def ffOf (mag : ℤ → ℚ) (fftSize : ℕ) (sampleRate : ℚ) : ℚ :=
  ((searchOf mag fftSize sampleRate).2 : ℚ) * sampleRate / fftSize

/-- The radicand of `result.level` (source line 94). -/
def levelSqOf (audioBuffer : ℕ → ℚ) (bufferSize : ℕ) : ℚ :=
  sumSquares audioBuffer bufferSize / bufferSize

/-- `noiseLevel` (source line 135): `sqrt(noiseSum / noiseBins)` when at
least one bin qualified, else 0. -/
noncomputable def noiseLevelOf (mag : ℤ → ℚ) (ff sr : ℚ) (fftSize : ℕ) (minBin : ℤ) : ℝ :=
  if 0 < (noisePass mag ff sr fftSize minBin).2 then
    Real.sqrt (((noisePass mag ff sr fftSize minBin).1 /
      ((noisePass mag ff sr fftSize minBin).2 : ℚ) : ℚ) : ℝ)
  else 0

/-- `FFTAnalyzer::analyze` (source lines 47-143).

The float comparison `result.level > 0.0001f` is carried out on the exact
radicand: `sqrt(s) > 1/10000  ↔  s > 1/10^8` for `s ≥ 0` (see
`sqrt_gt_milli_iff` below), which keeps the control flow inside `ℚ`. -/
noncomputable def analyze (fftSize : ℕ) (mag : ℤ → ℚ) (audioBuffer : ℕ → ℚ)
    (bufferSize : ℕ) (sampleRate : ℚ) : AnalysisResult :=
  if bufferSize < fftSize then
    { fundamentalFrequency := 0, thd := 0, thdN := 0, level := 0,
      harmonics := List.replicate 7 0, noiseFloor := 0 }
  else if 0 < ffOf mag fftSize sampleRate ∧
      1 / 100000000 < levelSqOf audioBuffer bufferSize then
    { fundamentalFrequency := ffOf mag fftSize sampleRate,
      thd := Real.sqrt
          (((harmonicPass mag (ffOf mag fftSize sampleRate) sampleRate fftSize).2 : ℚ) : ℝ) /
        (((searchOf mag fftSize sampleRate).1 : ℚ) : ℝ) * 100,
      thdN := (Real.sqrt
            (((harmonicPass mag (ffOf mag fftSize sampleRate) sampleRate fftSize).2 : ℚ) : ℝ) +
          noiseLevelOf mag (ffOf mag fftSize sampleRate) sampleRate fftSize
            (minBinOf fftSize sampleRate)) /
        (((searchOf mag fftSize sampleRate).1 : ℚ) : ℝ) * 100,
      level := Real.sqrt ((levelSqOf audioBuffer bufferSize : ℚ) : ℝ),
      harmonics := (harmonicPass mag (ffOf mag fftSize sampleRate) sampleRate fftSize).1,
      noiseFloor := noiseLevelOf mag (ffOf mag fftSize sampleRate) sampleRate fftSize
        (minBinOf fftSize sampleRate) }
  else
    { fundamentalFrequency := ffOf mag fftSize sampleRate, thd := 0, thdN := 0,
      level := Real.sqrt ((levelSqOf audioBuffer bufferSize : ℚ) : ℝ),
      harmonics := List.replicate 7 0, noiseFloor := 0 }

/-! ## Plugin data model (THDAnalyzerPlugin.h lines 152-397)

`THDDataMessage` and `ChannelData` carry C++ `float`/`double` measurement
values.  The field type is a parameter `α`: the byte codec views each such
value as its 32-bit pattern (`α := ℕ`, a number below `2^32`, since
`toMidiBytes`/`fromMidiBytes` only `memcpy` the four bytes of the value),
while the value-level plugin logic (`sendTHDDataToMaster`) computes with
`α := ℝ`.  The UI-only `Colour channelColor` field is omitted (opaque display
token, never touched by the modelled operations). -/

/-- `THDDataMessage` (source lines 185-195). -/
structure THDDataMessage (α : Type) where
  channelId : ℤ
  thd : α
  thdN : α
  level : α
  peakLevel : α
  harmonics : Fin 7 → α
deriving DecidableEq

/-- The C++ default constructor: everything zeroed. -/
def defaultMessage : THDDataMessage ℕ :=
  { channelId := 0, thd := 0, thdN := 0, level := 0, peakLevel := 0, harmonics := fun _ => 0 }

/-- `ChannelData` (source lines 155-172); `harmonics` is resized to 7 at
construction. -/
structure ChannelData (α : Type) where
  channelId : ℤ
  channelName : String
  thd : α
  thdN : α
  level : α
  peakLevel : α
  harmonics : Fin 7 → α
  muted : Bool
  soloed : Bool
deriving DecidableEq

/-- `PluginMode` (source lines 177-180). -/
inductive PluginMode where
  | ChannelStrip
  | MasterBrain
deriving DecidableEq

/-- The `THDAnalyzerPlugin` state touched by the communication methods
(source lines 273-397).  The channel registry is the fixed table of 8 slots
described by the spec (its construction is not in the sources; the update
code guards indices with `0 <= id && id < 8`).  `midiOutputBuffer` holds the
staged telemetry frames; their byte form is `toMidiBytes` below. -/
structure PluginState (α : Type) where
  pluginMode : PluginMode
  channelId : ℤ
  midiOutputBuffer : List (THDDataMessage α)
  channels : Fin 8 → ChannelData α
deriving DecidableEq

/-! ## MIDI SysEx transport (JUCE `MidiMessage`, external library)

JUCE semantics used by the source: a message built from raw bytes is SysEx
iff its first byte is `0xF0`; `getSysExData()` points just after that byte,
and `getSysExDataSize()` is the raw length minus 2 (the `0xF0` header and the
`0xF7` terminator are excluded).  Native float byte order is modelled as
little-endian; the codec only moves the four bytes, so the choice does not
affect any behaviour proved here. -/

structure MidiMessage where
  bytes : List ℕ
deriving DecidableEq

def MidiMessage.isSysEx (m : MidiMessage) : Bool := m.bytes.getD 0 0 == 0xF0

def MidiMessage.getSysExData (m : MidiMessage) : List ℕ := m.bytes.drop 1

def MidiMessage.getSysExDataSize (m : MidiMessage) : ℕ := m.bytes.length - 2

/-- The four bytes of a 32-bit value, as `memcpy` lays them out. -/
def f32ToBytes (bits : ℕ) : List ℕ :=
  [bits % 256, bits / 256 % 256, bits / 65536 % 256, bits / 16777216 % 256]

/-- Reassembling a 32-bit value from four bytes at `pos`, as
`memcpy(&field, &data[pos], 4)` does. -/
def readF32 (data : List ℕ) (pos : ℕ) : ℕ :=
  data.getD pos 0 + 256 * data.getD (pos + 1) 0 + 65536 * data.getD (pos + 2) 0 +
    16777216 * data.getD (pos + 3) 0

/-- `THDDataMessage::toMidiBytes` (source lines 198-233): SysEx frame
`F0 7D 01 id thd thdN level peak H2..H8 F7`; the harmonic loop
`for (h = 0; h < 7; h++)` is unrolled. -/
def THDDataMessage.toMidiBytes (msg : THDDataMessage ℕ) : MidiMessage :=
  ⟨[0xF0, 0x7D, 0x01, (msg.channelId % 256).toNat]
    ++ f32ToBytes msg.thd ++ f32ToBytes msg.thdN
    ++ f32ToBytes msg.level ++ f32ToBytes msg.peakLevel
    ++ f32ToBytes (msg.harmonics 0) ++ f32ToBytes (msg.harmonics 1)
    ++ f32ToBytes (msg.harmonics 2) ++ f32ToBytes (msg.harmonics 3)
    ++ f32ToBytes (msg.harmonics 4) ++ f32ToBytes (msg.harmonics 5)
    ++ f32ToBytes (msg.harmonics 6) ++ [0xF7]⟩

/-- `THDDataMessage::fromMidiBytes` (source lines 236-271).  The receiver
object is `self`; on every early `return false` it is left unmodified. -/
def THDDataMessage.fromMidiBytes (self : THDDataMessage ℕ) (midi : MidiMessage) :
    THDDataMessage ℕ × Bool :=
  if !midi.isSysEx then (self, false)
  else
    let data := midi.getSysExData
    let size := midi.getSysExDataSize
    if size < 49 then (self, false)
    else if data.getD 0 0 ≠ 0x7D ∨ data.getD 1 0 ≠ 0x01 then (self, false)
    else
      ({ channelId := (data.getD 2 0 : ℤ),
         thd := readF32 data 3, thdN := readF32 data 7,
         level := readF32 data 11, peakLevel := readF32 data 15,
         harmonics := fun i => readF32 data (19 + 4 * (i : ℕ)) }, true)

/-- `THDAnalyzerPlugin::setChannelId` (source lines 285-290). -/
def setChannelId {α : Type} (st : PluginState α) (idArg : ℤ) : PluginState α :=
  if 0 ≤ idArg ∧ idArg < 8 then
    { st with
        channelId := idArg,
        channels := fun j =>
          if j = 0 then { st.channels 0 with channelId := idArg } else st.channels j }
  else st

/-- `THDAnalyzerPlugin::sendTHDDataToMaster` (source lines 294-313): builds a
`THDDataMessage` from the analysis result (`peakLevel = level * 1.5f`,
harmonics copied with the `i < analysis.harmonics.size()` bound) and stages
it on `midiOutputBuffer`. -/
noncomputable def sendTHDDataToMaster (st : PluginState ℝ) (analysis : AnalysisResult) :
    PluginState ℝ :=
  if st.pluginMode ≠ PluginMode.ChannelStrip then st
  else
    let msg : THDDataMessage ℝ :=
      { channelId := st.channelId,
        thd := analysis.thd,
        thdN := analysis.thdN,
        level := analysis.level,
        peakLevel := analysis.level * 1.5,
        harmonics := fun i =>
          if h : (i : ℕ) < analysis.harmonics.length then
            ((analysis.harmonics.get ⟨(i : ℕ), h⟩ : ℚ) : ℝ)
          else 0 }
    { st with midiOutputBuffer := st.midiOutputBuffer ++ [msg] }

/-- `THDAnalyzerPlugin::receiveTHDData` (source lines 316-335): decode into a
default-constructed message and, in MasterBrain mode with an in-range
channel id, overwrite that slot's measurement fields (the harmonic copy loop
checks `i < channels[id].harmonics.size()`, which is 7, so all seven are
copied). -/
def receiveTHDData (st : PluginState ℕ) (midi : MidiMessage) : PluginState ℕ :=
  if st.pluginMode ≠ PluginMode.MasterBrain then st
  else
    let r := THDDataMessage.fromMidiBytes defaultMessage midi
    let msg := r.1
    if r.2 = true ∧ 0 ≤ msg.channelId ∧ msg.channelId < 8 then
      { st with
          channels := fun j =>
            if (j : ℤ) = msg.channelId then
              { st.channels j with
                  thd := msg.thd, thdN := msg.thdN, level := msg.level,
                  peakLevel := msg.peakLevel, harmonics := fun i => msg.harmonics i }
            else st.channels j }
    else st

/-! ## Web aggregation (`src/lib/useAudioEngine.ts`)

`computeMasterTHD` works on the web UI `ChannelData` (from
`components/ChannelStrip.tsx`); the UI-only fields `saturation`, `drive`,
`character` and `color` are omitted.  JS numbers are modelled in `ℝ`. -/

namespace Web

structure ChannelData where
  id : String
  name : String
  thd : ℝ
  thdN : ℝ
  level : ℝ
  peakLevel : ℝ
  harmonics : List ℝ
  muted : Bool
  soloed : Bool

structure MasterTHDResult where
  thd : ℝ
  thdN : ℝ
  worstChannel : Option String

/-- `computeMasterTHD` (useAudioEngine.ts lines 64-93).  The JS
`Array.reduce` without an initial value starts from the first element, so the
non-empty case is written on `a :: rest`. -/
noncomputable def computeMasterTHD (channels : List ChannelData) : MasterTHDResult :=
  match channels.filter (fun c => !c.muted) with
  | [] => { thd := 0, thdN := 0, worstChannel := none }
  | a :: rest =>
      let activeChannels := a :: rest
      let sumTHDSquared := activeChannels.foldl (fun acc ch => acc + ch.thd * ch.thd) 0
      let masterTHD := Real.sqrt (sumTHDSquared / (activeChannels.length : ℝ))
      let sumTHDNSquared := activeChannels.foldl (fun acc ch => acc + ch.thdN * ch.thdN) 0
      let masterTHDN := Real.sqrt (sumTHDNSquared / (activeChannels.length : ℝ))
      let worstChannel :=
        (rest.foldl (fun worst ch => if ch.thd > worst.thd then ch else worst) a).name
      { thd := max 0.001 (min masterTHD 10),
        thdN := max 0.001 (min masterTHDN 10),
        worstChannel := some worstChannel }

end Web


/-! ## Claim-side definitions and concrete test vectors

`claimClampedSearch` follows the wording of the specification (claim C3):
both search bounds clamped into `[1, N/2 - 1]`.  The remaining definitions
are concrete inputs used in counterexamples and witnesses; a small transform
size (8) is used so that the rational folds evaluate inside proofs - the
`fftSize` parameter plays exactly the role of the constructor-set 8192. -/

/-- Clamping a bin index into `[1, N/2 - 1]`, as the specification asks. -/
def clampBin (fftSize : ℕ) (b : ℤ) : ℤ := max 1 (min b (((fftSize / 2 : ℕ) : ℤ) - 1))

/-- The fundamental search as the specification words it: `minBin` and
`maxBin` both clamped into `[1, N/2 - 1]`, then the first-maximum scan. -/
def claimClampedSearch (mag : ℤ → ℚ) (fftSize : ℕ) (sampleRate : ℚ) : ℚ × ℤ :=
  fundamentalSearch mag (clampBin fftSize ⌊20 * (fftSize : ℚ) / sampleRate⌋)
    (clampBin fftSize ⌊2000 * (fftSize : ℚ) / sampleRate⌋) ((fftSize / 2 : ℕ) : ℤ)

/-- The fundamental frequency the specification's clamped search yields. -/
def claimClampedFF (mag : ℤ → ℚ) (fftSize : ℕ) (sampleRate : ℚ) : ℚ :=
  ((claimClampedSearch mag fftSize sampleRate).2 : ℚ) * sampleRate / fftSize

/-- Spectrum with all energy on the DC bin plus a small bin-1 component. -/
def magC3 : ℤ → ℚ := fun i => if i = 0 then 5 else if i = 1 then 1 else 0

/-- Spectrum whose harmonics (bins 2 and 3) together outweigh the
fundamental at bin 1. -/
def magC8 : ℤ → ℚ := fun i =>
  if i = 1 then 10 else if i = 2 then 9 else if i = 3 then 9 else 0

/-- Spectrum with a single component at bin 1. -/
def magW1 : ℤ → ℚ := fun i => if i = 1 then 3 else 0

/-- Silent spectrum. -/
def magZero : ℤ → ℚ := fun _ => 0

/-- Constant full-scale test block. -/
def audioOne : ℕ → ℚ := fun _ => 1

/-- A default channel slot with measurement value `z`. -/
def defaultChannel {α : Type} (z : α) : ChannelData α :=
  { channelId := 0, channelName := "", thd := z, thdN := z, level := z, peakLevel := z,
    harmonics := fun _ => z, muted := false, soloed := false }

/-- A MasterBrain-mode plugin state with default slots. -/
def stMaster : PluginState ℕ :=
  { pluginMode := PluginMode.MasterBrain, channelId := 0, midiOutputBuffer := [],
    channels := fun _ => defaultChannel 0 }

/-- A ChannelStrip-mode plugin state over value-level floats. -/
noncomputable def stStrip : PluginState ℝ :=
  { pluginMode := PluginMode.ChannelStrip, channelId := 2, midiOutputBuffer := [],
    channels := fun _ => defaultChannel (0 : ℝ) }

/-- A ChannelStrip-mode plugin state at the wire level. -/
def stStripN : PluginState ℕ :=
  { pluginMode := PluginMode.ChannelStrip, channelId := 0, midiOutputBuffer := [],
    channels := fun _ => defaultChannel 0 }

/-- A well-formed inbound telemetry frame for channel 3 (raw length 51, so
the SysEx data size seen by the decoder is 49). -/
def frameC6 : MidiMessage := ⟨[0xF0, 0x7D, 0x01, 3] ++ List.replicate 46 0 ++ [0xF7]⟩

/-- A well-formed inbound telemetry frame carrying channel id 250. -/
def frameC6out : MidiMessage := ⟨[0xF0, 0x7D, 0x01, 250] ++ List.replicate 46 0 ++ [0xF7]⟩

/-- The message `frameC6` decodes to. -/
def msgC6 : THDDataMessage ℕ :=
  { channelId := 3, thd := 0, thdN := 0, level := 0, peakLevel := 0, harmonics := fun _ => 0 }

/-- The message `frameC6out` decodes to. -/
def msgC6out : THDDataMessage ℕ :=
  { channelId := 250, thd := 0, thdN := 0, level := 0, peakLevel := 0, harmonics := fun _ => 0 }

/-- A frame with correct identifiers whose SysEx data size is exactly the
47 bytes the payload occupies (raw length 49). -/
def frameC5 : MidiMessage := ⟨[0xF0, 0x7D, 0x01, 2] ++ List.replicate 44 7 ++ [0xF7]⟩

/-- A concrete analysis result handed to `sendTHDDataToMaster`. -/
noncomputable def resC9 : AnalysisResult :=
  { fundamentalFrequency := 50, thd := 2, thdN := 3, level := 4,
    harmonics := [5, 6, 7, 8, 9, 10, 11], noiseFloor := 0 }

/-- A web channel whose THD exceeds the aggregate clamp. -/
noncomputable def chC7 : Web.ChannelData :=
  { id := "c0", name := "c0", thd := 20, thdN := 20, level := 0, peakLevel := 0,
    harmonics := [], muted := false, soloed := false }

/-- A web channel with in-range THD. -/
noncomputable def chC7w : Web.ChannelData :=
  { id := "c1", name := "c1", thd := 3, thdN := 4, level := 0, peakLevel := 0,
    harmonics := [], muted := false, soloed := false }

/-! ## Helper lemmas -/

theorem intRange_succ (lo : ℤ) (len : ℕ) :
    intRange lo (len + 1) = intRange lo len ++ [lo + len] := by
  simp [intRange, List.range_succ]

theorem mem_intRange {i lo : ℤ} {len : ℕ} :
    i ∈ intRange lo len ↔ lo ≤ i ∧ i < lo + len := by
  induction len with
  | zero =>
      constructor
      · intro h
        simp [intRange] at h
      · intro h
        omega
  | succ len ih =>
      rw [intRange_succ, List.mem_append]
      constructor
      · rintro (h | h)
        · have := ih.1 h
          omega
        · simp at h
          omega
      · intro h
        by_cases hlt : i < lo + len
        · exact Or.inl (ih.2 ⟨h.1, hlt⟩)
        · right
          simp
          omega

theorem mem_searchIndices {i minBin maxBin half : ℤ} :
    i ∈ searchIndices minBin maxBin half ↔ minBin ≤ i ∧ i ≤ maxBin ∧ i < half := by
  rw [searchIndices, mem_intRange]
  omega

/-- Behaviour of the strictly-greater running-maximum loop: either no bin ever
beat the initial `maxMag = 0` (and the accumulator is still `(0, 0)`), or the
result is a visited bin whose magnitude is positive, at least every visited
magnitude, and strictly above every earlier visited magnitude. -/
theorem searchFold_cases (mag : ℤ → ℚ) (lo : ℤ) (len : ℕ) (r : ℚ × ℤ)
    (hr : r = (intRange lo len).foldl
        (fun acc i => if mag i > acc.1 then (mag i, i) else acc) (0, 0)) :
    (r = (0, 0) ∧ ∀ i ∈ intRange lo len, mag i ≤ 0) ∨
    (r.2 ∈ intRange lo len ∧ r.1 = mag r.2 ∧ 0 < r.1 ∧
      (∀ i ∈ intRange lo len, mag i ≤ r.1) ∧
      ∀ i ∈ intRange lo len, i < r.2 → mag i < r.1) := by
  induction len generalizing r with
  | zero =>
      left
      constructor
      · simpa [intRange] using hr
      · intro i hi
        simp [intRange] at hi
  | succ len ih =>
      rw [intRange_succ, List.foldl_append, List.foldl_cons, List.foldl_nil] at hr
      rcases ih ((intRange lo len).foldl
          (fun acc i => if mag i > acc.1 then (mag i, i) else acc) (0, 0)) rfl with
        ⟨h0, hall⟩ | ⟨hmem, heq, hpos, hub, hfirst⟩
      · rw [h0] at hr
        by_cases hnew : mag (lo + len) > 0
        · right
          rw [if_pos hnew] at hr
          subst hr
          refine ⟨by simp [intRange_succ], rfl, hnew, ?_, ?_⟩
          · intro i hi
            rw [intRange_succ, List.mem_append] at hi
            rcases hi with hi | hi
            · exact le_of_lt (lt_of_le_of_lt (hall i hi) hnew)
            · simp at hi
              subst hi
              exact le_rfl
          · intro i hi hlt
            rw [intRange_succ, List.mem_append] at hi
            rcases hi with hi | hi
            · exact lt_of_le_of_lt (hall i hi) hnew
            · simp at hi
              omega
        · left
          rw [if_neg hnew] at hr
          refine ⟨hr, ?_⟩
          intro i hi
          rw [intRange_succ, List.mem_append] at hi
          rcases hi with hi | hi
          · exact hall i hi
          · simp at hi
            subst hi
            exact le_of_not_lt hnew
      · set r0 := (intRange lo len).foldl
          (fun acc i => if mag i > acc.1 then (mag i, i) else acc) (0, 0) with hr0
        right
        by_cases hnew : mag (lo + len) > r0.1
        · rw [if_pos hnew] at hr
          subst hr
          refine ⟨by simp [intRange_succ], rfl, lt_trans hpos hnew, ?_, ?_⟩
          · intro i hi
            rw [intRange_succ, List.mem_append] at hi
            rcases hi with hi | hi
            · exact le_of_lt (lt_of_le_of_lt (hub i hi) hnew)
            · simp at hi
              subst hi
              exact le_rfl
          · intro i hi hlt
            rw [intRange_succ, List.mem_append] at hi
            rcases hi with hi | hi
            · exact lt_of_le_of_lt (hub i hi) hnew
            · simp at hi
              omega
        · rw [if_neg hnew] at hr
          subst hr
          have hlt : r0.2 < lo + len := (mem_intRange.1 hmem).2
          refine ⟨by rw [intRange_succ]; exact List.mem_append_left _ hmem, heq, hpos, ?_, ?_⟩
          · intro i hi
            rw [intRange_succ, List.mem_append] at hi
            rcases hi with hi | hi
            · exact hub i hi
            · simp at hi
              subst hi
              exact le_of_not_lt hnew
          · intro i hi hlti
            rw [intRange_succ, List.mem_append] at hi
            rcases hi with hi | hi
            · exact hfirst i hi hlti
            · simp at hi
              omega

/-- `searchFold_cases` specialised to the fundamental search of `analyze`. -/
theorem fundamentalSearch_cases (mag : ℤ → ℚ) (minBin maxBin half : ℤ) :
    (fundamentalSearch mag minBin maxBin half = (0, 0) ∧
      ∀ i ∈ searchIndices minBin maxBin half, mag i ≤ 0) ∨
    ((fundamentalSearch mag minBin maxBin half).2 ∈ searchIndices minBin maxBin half ∧
      (fundamentalSearch mag minBin maxBin half).1 =
        mag (fundamentalSearch mag minBin maxBin half).2 ∧
      0 < (fundamentalSearch mag minBin maxBin half).1 ∧
      (∀ i ∈ searchIndices minBin maxBin half,
        mag i ≤ (fundamentalSearch mag minBin maxBin half).1) ∧
      ∀ i ∈ searchIndices minBin maxBin half,
        i < (fundamentalSearch mag minBin maxBin half).2 →
          mag i < (fundamentalSearch mag minBin maxBin half).1) :=
  searchFold_cases mag minBin _ _ rfl

theorem foldl_add_map {M : Type} [AddCommMonoid M] {β : Type} (f : β → M) :
    ∀ (l : List β) (x : M), l.foldl (fun acc b => acc + f b) x = x + (l.map f).sum := by
  intro l
  induction l with
  | nil => simp
  | cons a t ih => intro x; simp [ih, add_assoc]

theorem sumSquares_nonneg (audioBuffer : ℕ → ℚ) (bufferSize : ℕ) :
    0 ≤ sumSquares audioBuffer bufferSize := by
  rw [sumSquares, foldl_add_map (fun i => audioBuffer i * audioBuffer i)]
  simp only [zero_add]
  apply List.sum_nonneg
  intro x hx
  simp only [List.mem_map] at hx
  rcases hx with ⟨i, _, rfl⟩
  exact mul_self_nonneg _

/-- The float comparison `sqrt(s) > 0.0001` is equivalent to `s > 1e-8`. -/
theorem sqrt_gt_milli_iff {s : ℚ} :
    (1 / 10000 : ℝ) < Real.sqrt ((s : ℚ) : ℝ) ↔ (1 / 100000000 : ℚ) < s := by
  rw [Real.lt_sqrt (by norm_num)]
  rw [show ((1 : ℝ) / 10000) ^ 2 = ((1 / 100000000 : ℚ) : ℝ) by norm_num]
  exact Rat.cast_lt

theorem ratTrunc_intCast (n : ℤ) : ratTrunc (n : ℚ) = n := by
  rw [ratTrunc]
  split <;> simp

theorem sum_Icc_2_8 {M : Type} [AddCommMonoid M] (f : ℕ → M) :
    ∑ h ∈ (Finset.Icc 2 8 : Finset ℕ), f h =
      f 2 + (f 3 + (f 4 + (f 5 + (f 6 + (f 7 + f 8))))) := by
  rw [show (Finset.Icc 2 8 : Finset ℕ) =
      insert 2 (insert 3 (insert 4 (insert 5 (insert 6 (insert 7 ({8} : Finset ℕ))))))
      from by decide]
  rw [Finset.sum_insert (by decide), Finset.sum_insert (by decide), Finset.sum_insert (by decide),
    Finset.sum_insert (by decide), Finset.sum_insert (by decide), Finset.sum_insert (by decide),
    Finset.sum_singleton]

set_option maxHeartbeats 1000000 in
/-- Closed form of the harmonic loop, for an arbitrary bin map `g`: the
`harmonics` entry for `h` is filled exactly when `g h < N/2`, and the sum of
squares ranges over those `h`. -/
theorem harmonicFold_closed (g : ℕ → ℤ) (mag : ℤ → ℚ) (N2 : ℤ) :
    (List.range' 2 7).foldl
      (fun acc (h : ℕ) =>
        if g h < N2 then (acc.1.set (h - 2) (mag (g h)), acc.2 + mag (g h) * mag (g h))
        else acc)
      (List.replicate 7 0, 0) =
    ((List.range 7).map fun k => if g (k + 2) < N2 then mag (g (k + 2)) else 0,
      ∑ h ∈ (Finset.Icc 2 8 : Finset ℕ), if g h < N2 then mag (g h) * mag (g h) else 0) := by
  rw [sum_Icc_2_8]
  rw [show List.range' 2 7 = [2, 3, 4, 5, 6, 7, 8] from rfl,
    show List.range 7 = [0, 1, 2, 3, 4, 5, 6] from rfl]
  simp only [List.foldl_cons, List.foldl_nil, List.map_cons, List.map_nil]
  norm_num
  split_ifs <;> refine Prod.ext ?_ (by ring) <;> rfl

theorem harmonicPass_closed (mag : ℤ → ℚ) (ff sr : ℚ) (N : ℕ) :
    harmonicPass mag ff sr N =
      ((List.range 7).map fun k =>
          if ratTrunc (((k + 2 : ℕ) : ℚ) * ff * N / sr) < ((N / 2 : ℕ) : ℤ) then
            mag (ratTrunc (((k + 2 : ℕ) : ℚ) * ff * N / sr))
          else 0,
        ∑ h ∈ (Finset.Icc 2 8 : Finset ℕ),
          if ratTrunc ((h : ℚ) * ff * N / sr) < ((N / 2 : ℕ) : ℤ) then
            mag (ratTrunc ((h : ℚ) * ff * N / sr)) * mag (ratTrunc ((h : ℚ) * ff * N / sr))
          else 0) :=
  harmonicFold_closed (fun h => ratTrunc ((h : ℚ) * ff * N / sr)) mag _

/-- With a non-positive sample rate the fundamental-search loop either does
not run or examines only bin 0 (for `sampleRate < 0` both bounds are negative
with `minBin > maxBin`, except when both truncate to 0; for
`sampleRate = 0` the bounds are 0). -/
theorem searchIndices_zero_of_nonpos {N : ℕ} {sr : ℚ} (hsr : sr ≤ 0) :
    ∀ i ∈ searchIndices (ratTrunc (20 * (N : ℚ) / sr)) (ratTrunc (2000 * (N : ℚ) / sr))
        ((N / 2 : ℕ) : ℤ), i = 0 := by
  intro i hi
  rw [mem_searchIndices] at hi
  rcases eq_or_lt_of_le hsr with heq | hlt
  · subst heq
    simp only [div_zero, ratTrunc, le_refl, if_pos, Int.floor_zero] at hi
    omega
  · have hx0 : 20 * (N : ℚ) / sr ≤ 0 := div_nonpos_iff.mpr (Or.inl ⟨by positivity, hsr⟩)
    have hy : 2000 * (N : ℚ) / sr = 100 * (20 * (N : ℚ) / sr) := by ring
    set x : ℚ := 20 * (N : ℚ) / sr with hxdef
    rw [hy] at hi
    rcases eq_or_lt_of_le hx0 with hxe | hxlt
    · rw [hxe] at hi
      simp only [mul_zero, ratTrunc, le_refl, if_pos, Int.floor_zero] at hi
      omega
    · have hmin : ratTrunc x = ⌈x⌉ := by rw [ratTrunc, if_neg (not_le.mpr hxlt)]
      have h100 : 100 * x < 0 := by linarith
      have hmax : ratTrunc (100 * x) = ⌈100 * x⌉ := by rw [ratTrunc, if_neg (not_le.mpr h100)]
      rw [hmin, hmax] at hi
      by_cases hcase : x ≤ -1 / 100
      · have hc2 : ⌈(100 : ℚ) * x⌉ ≤ -1 := by
          rw [Int.ceil_le]
          push_cast
          linarith
        have hmono : ⌈(100 : ℚ) * x⌉ ≤ ⌈x⌉ := Int.ceil_le_ceil (by linarith)
        have hne : ⌈(100 : ℚ) * x⌉ ≠ ⌈x⌉ := by
          intro he
          have h4 : ((⌈(100 : ℚ) * x⌉ : ℤ) : ℚ) < 100 * x + 1 := Int.ceil_lt_add_one _
          have h5 : x ≤ ((⌈x⌉ : ℤ) : ℚ) := Int.le_ceil x
          have h3 : ⌈x⌉ ≤ 0 := by
            rw [Int.ceil_le]
            push_cast
            linarith
          have hge : (0 : ℤ) ≤ ⌈x⌉ := by
            by_contra hneg
            push_neg at hneg
            have hneg1 : ⌈x⌉ ≤ -1 := by omega
            have hcast : ((⌈x⌉ : ℤ) : ℚ) ≤ -1 := by exact_mod_cast hneg1
            rw [he] at h4
            linarith
          have hzero : ⌈x⌉ = 0 := le_antisymm h3 hge
          rw [hzero] at he
          omega
        have : ⌈(100 : ℚ) * x⌉ < ⌈x⌉ := lt_of_le_of_ne hmono hne
        omega
      · push_neg at hcase
        have hceilx : ⌈x⌉ = 0 := by
          rw [Int.ceil_eq_zero_iff, Set.mem_Ioc]
          constructor <;> linarith
        have hceily : ⌈(100 : ℚ) * x⌉ = 0 := by
          rw [Int.ceil_eq_zero_iff, Set.mem_Ioc]
          constructor <;> linarith
        rw [hceilx, hceily] at hi
        omega

theorem analyze_fundamentalFrequency (fftSize : ℕ) (mag : ℤ → ℚ) (audioBuffer : ℕ → ℚ)
    (bufferSize : ℕ) (sampleRate : ℚ) (h : ¬ bufferSize < fftSize) :
    (analyze fftSize mag audioBuffer bufferSize sampleRate).fundamentalFrequency =
      ffOf mag fftSize sampleRate := by
  unfold analyze
  rw [if_neg h]
  split <;> rfl

theorem analyze_level (fftSize : ℕ) (mag : ℤ → ℚ) (audioBuffer : ℕ → ℚ)
    (bufferSize : ℕ) (sampleRate : ℚ) (h : ¬ bufferSize < fftSize) :
    (analyze fftSize mag audioBuffer bufferSize sampleRate).level =
      Real.sqrt ((levelSqOf audioBuffer bufferSize : ℚ) : ℝ) := by
  unfold analyze
  rw [if_neg h]
  split <;> rfl

theorem analyze_eq_then (fftSize : ℕ) (mag : ℤ → ℚ) (audioBuffer : ℕ → ℚ)
    (bufferSize : ℕ) (sampleRate : ℚ) (h : ¬ bufferSize < fftSize)
    (hg : 0 < ffOf mag fftSize sampleRate ∧
      1 / 100000000 < levelSqOf audioBuffer bufferSize) :
    analyze fftSize mag audioBuffer bufferSize sampleRate =
      { fundamentalFrequency := ffOf mag fftSize sampleRate,
        thd := Real.sqrt
            (((harmonicPass mag (ffOf mag fftSize sampleRate) sampleRate fftSize).2 : ℚ) : ℝ) /
          (((searchOf mag fftSize sampleRate).1 : ℚ) : ℝ) * 100,
        thdN := (Real.sqrt
              (((harmonicPass mag (ffOf mag fftSize sampleRate) sampleRate fftSize).2 : ℚ) : ℝ) +
            noiseLevelOf mag (ffOf mag fftSize sampleRate) sampleRate fftSize
              (minBinOf fftSize sampleRate)) /
          (((searchOf mag fftSize sampleRate).1 : ℚ) : ℝ) * 100,
        level := Real.sqrt ((levelSqOf audioBuffer bufferSize : ℚ) : ℝ),
        harmonics := (harmonicPass mag (ffOf mag fftSize sampleRate) sampleRate fftSize).1,
        noiseFloor := noiseLevelOf mag (ffOf mag fftSize sampleRate) sampleRate fftSize
          (minBinOf fftSize sampleRate) } := by
  unfold analyze
  rw [if_neg h, if_pos hg]

theorem analyze_eq_else (fftSize : ℕ) (mag : ℤ → ℚ) (audioBuffer : ℕ → ℚ)
    (bufferSize : ℕ) (sampleRate : ℚ) (h : ¬ bufferSize < fftSize)
    (hg : ¬ (0 < ffOf mag fftSize sampleRate ∧
      1 / 100000000 < levelSqOf audioBuffer bufferSize)) :
    analyze fftSize mag audioBuffer bufferSize sampleRate =
      { fundamentalFrequency := ffOf mag fftSize sampleRate, thd := 0, thdN := 0,
        level := Real.sqrt ((levelSqOf audioBuffer bufferSize : ℚ) : ℝ),
        harmonics := List.replicate 7 0, noiseFloor := 0 } := by
  unfold analyze
  rw [if_neg h, if_neg hg]

theorem analyze_eq_short (fftSize : ℕ) (mag : ℤ → ℚ) (audioBuffer : ℕ → ℚ)
    (bufferSize : ℕ) (sampleRate : ℚ) (h : bufferSize < fftSize) :
    analyze fftSize mag audioBuffer bufferSize sampleRate =
      { fundamentalFrequency := 0, thd := 0, thdN := 0, level := 0,
        harmonics := List.replicate 7 0, noiseFloor := 0 } := by
  unfold analyze
  rw [if_pos h]

theorem minBinOf_of_ne (fftSize : ℕ) {sampleRate : ℚ} (hsr : sampleRate ≠ 0) :
    minBinOf fftSize sampleRate = ratTrunc (20 * (fftSize : ℚ) / sampleRate) := if_neg hsr

theorem maxBinOf_of_ne (fftSize : ℕ) {sampleRate : ℚ} (hsr : sampleRate ≠ 0) :
    maxBinOf fftSize sampleRate = ratTrunc (2000 * (fftSize : ℚ) / sampleRate) := if_neg hsr

theorem searchOf_snd_zero_of_neg (mag : ℤ → ℚ) (fftSize : ℕ) {sampleRate : ℚ}
    (hsr : sampleRate < 0) : (searchOf mag fftSize sampleRate).2 = 0 := by
  rcases fundamentalSearch_cases mag (minBinOf fftSize sampleRate) (maxBinOf fftSize sampleRate)
      ((fftSize / 2 : ℕ) : ℤ) with ⟨h0, _⟩ | ⟨hmem, _⟩
  · rw [searchOf, h0]
  · rw [searchOf, minBinOf_of_ne fftSize (ne_of_lt hsr), maxBinOf_of_ne fftSize (ne_of_lt hsr)]
    rw [minBinOf_of_ne fftSize (ne_of_lt hsr), maxBinOf_of_ne fftSize (ne_of_lt hsr)] at hmem
    exact searchIndices_zero_of_nonpos (le_of_lt hsr) _ hmem

/-- `fundamentalFrequency = fundamentalBin * sampleRate / fftSize` vanishes
for every non-positive rate: for a negative rate the search loop never
selects a bin, and for rate 0 the factor `sampleRate` is itself 0 (whatever
garbage bin the undefined minBin/maxBin casts lead to). -/
theorem ffOf_zero_of_nonpos (mag : ℤ → ℚ) (fftSize : ℕ) {sampleRate : ℚ}
    (hsr : sampleRate ≤ 0) : ffOf mag fftSize sampleRate = 0 := by
  rcases eq_or_lt_of_le hsr with heq | hlt
  · rw [ffOf, heq]
    norm_num
  · rw [ffOf, searchOf_snd_zero_of_neg mag fftSize hlt]
    norm_num

/-! ## Claim theorems -/

/-- C2 (code bug): `decode(encode(msg))` never succeeds.  `toMidiBytes`
produces a 49-byte frame, so the SysEx data size seen by `fromMidiBytes`
(JUCE strips the `0xF0`/`0xF7` framing) is 47, and the decoder's minimum
size check `size < 49` rejects it - for every message and every receiver
state, bit-for-bit round-tripping is impossible. -/
theorem roundTrip_always_fails (m0 msg : THDDataMessage ℕ) :
    THDDataMessage.fromMidiBytes m0 (THDDataMessage.toMidiBytes msg) = (m0, false) := by
  have hsys : (THDDataMessage.toMidiBytes msg).isSysEx = true := rfl
  have hsize : (THDDataMessage.toMidiBytes msg).getSysExDataSize = 47 := by
    rw [THDDataMessage.toMidiBytes, MidiMessage.getSysExDataSize]
    simp [f32ToBytes]
  rw [THDDataMessage.fromMidiBytes, hsys]
  simp only [Bool.not_true, Bool.false_eq_true, if_false, hsize]
  norm_num

/-- C5 (code bug): a frame that is SysEx-flagged, carries the correct
`7D 01` identifiers and contains the complete 47-byte payload (1 id byte +
11 floats after the two identifier bytes) is still rejected, because the
decoder demands `size >= 49` where the payload needs only 47; on this
failure the receiver message is left untouched. -/
theorem decode_rejects_complete_payload :
    THDDataMessage.fromMidiBytes defaultMessage frameC5 = (defaultMessage, false) ∧
    frameC5.getSysExDataSize = 47 ∧ frameC5.isSysEx = true ∧
    frameC5.getSysExData.getD 0 0 = 0x7D ∧ frameC5.getSysExData.getD 1 0 = 0x01 := by
  refine ⟨?_, by decide, by decide, by decide, by decide⟩
  decide

/-- C9: in ChannelStrip mode, `sendTHDDataToMaster` always stages exactly one
new telemetry message, whose `peakLevel` is `level * 1.5` - an approximation
derived from the result's own `level`, never an independent peak. -/
theorem sendTHDData_peak (st : PluginState ℝ) (analysis : AnalysisResult)
    (h : st.pluginMode = PluginMode.ChannelStrip) :
    ∃ msg : THDDataMessage ℝ,
      (sendTHDDataToMaster st analysis).midiOutputBuffer = st.midiOutputBuffer ++ [msg] ∧
      msg.peakLevel = analysis.level * 1.5 ∧
      msg.level = analysis.level ∧ msg.thd = analysis.thd ∧ msg.thdN = analysis.thdN ∧
      msg.channelId = st.channelId := by
  have hc : ¬ st.pluginMode ≠ PluginMode.ChannelStrip := by simp [h]
  rw [sendTHDDataToMaster, if_neg hc]
  exact ⟨_, rfl, rfl, rfl, rfl, rfl, rfl⟩

/-- Witness for C9 at a concrete state and analysis result. -/
theorem sendTHDData_peak_witness :
    stStrip.pluginMode = PluginMode.ChannelStrip ∧
    ∃ msg : THDDataMessage ℝ,
      (sendTHDDataToMaster stStrip resC9).midiOutputBuffer =
        stStrip.midiOutputBuffer ++ [msg] ∧
      msg.peakLevel = resC9.level * 1.5 ∧
      msg.level = resC9.level ∧ msg.thd = resC9.thd ∧ msg.thdN = resC9.thdN ∧
      msg.channelId = stStrip.channelId :=
  ⟨rfl, sendTHDData_peak stStrip resC9 rfl⟩

/-- C10: `setChannelId` ignores ids outside `[0, 8)` entirely; for an id in
range it writes the id into the instance field and into slot 0's `channelId`,
leaving every other slot, slot 0's other fields, the mode and the MIDI
buffer unchanged. -/
theorem setChannelId_spec {α : Type} (st : PluginState α) (idArg : ℤ) :
    (¬ (0 ≤ idArg ∧ idArg < 8) → setChannelId st idArg = st) ∧
    ((0 ≤ idArg ∧ idArg < 8) →
      (setChannelId st idArg).channelId = idArg ∧
      ((setChannelId st idArg).channels 0).channelId = idArg ∧
      ((setChannelId st idArg).channels 0).channelName = (st.channels 0).channelName ∧
      ((setChannelId st idArg).channels 0).thd = (st.channels 0).thd ∧
      ((setChannelId st idArg).channels 0).thdN = (st.channels 0).thdN ∧
      ((setChannelId st idArg).channels 0).level = (st.channels 0).level ∧
      ((setChannelId st idArg).channels 0).peakLevel = (st.channels 0).peakLevel ∧
      ((setChannelId st idArg).channels 0).harmonics = (st.channels 0).harmonics ∧
      ((setChannelId st idArg).channels 0).muted = (st.channels 0).muted ∧
      ((setChannelId st idArg).channels 0).soloed = (st.channels 0).soloed ∧
      (∀ j : Fin 8, j ≠ 0 → (setChannelId st idArg).channels j = st.channels j) ∧
      (setChannelId st idArg).pluginMode = st.pluginMode ∧
      (setChannelId st idArg).midiOutputBuffer = st.midiOutputBuffer) := by
  constructor
  · intro h
    rw [setChannelId, if_neg h]
  · intro h
    rw [setChannelId, if_pos h]
    refine ⟨rfl, ?_, ?_, ?_, ?_, ?_, ?_, ?_, ?_, ?_, ?_, rfl, rfl⟩
    all_goals try (intro j hj; simp [hj])
    all_goals simp

/-- Witness for C10: setting id 5 on a concrete state. -/
theorem setChannelId_spec_witness :
    ((0 : ℤ) ≤ 5 ∧ (5 : ℤ) < 8) ∧
    (setChannelId stStripN 5).channelId = 5 ∧
    ((setChannelId stStripN 5).channels 0).channelId = 5 :=
  ⟨by norm_num,
    ((setChannelId_spec stStripN 5).2 (by norm_num)).1,
    ((setChannelId_spec stStripN 5).2 (by norm_num)).2.1⟩

/-- C6: in MasterBrain mode, a successfully decoded message with an
out-of-range channel id mutates nothing, and one with an in-range id
overwrites exactly the measurement fields of that one slot (its `muted` and
`soloed` survive inside the record update), leaving all other slots and the
rest of the plugin state unchanged. -/
theorem receiveTHDData_spec (st : PluginState ℕ) (midi : MidiMessage)
    (msg : THDDataMessage ℕ) (hmode : st.pluginMode = PluginMode.MasterBrain)
    (hdec : THDDataMessage.fromMidiBytes defaultMessage midi = (msg, true)) :
    (¬ (0 ≤ msg.channelId ∧ msg.channelId < 8) → receiveTHDData st midi = st) ∧
    ((0 ≤ msg.channelId ∧ msg.channelId < 8) →
      (∀ j : Fin 8, (j : ℤ) ≠ msg.channelId →
        (receiveTHDData st midi).channels j = st.channels j) ∧
      (∀ j : Fin 8, (j : ℤ) = msg.channelId →
        (receiveTHDData st midi).channels j =
          { st.channels j with
              thd := msg.thd, thdN := msg.thdN, level := msg.level,
              peakLevel := msg.peakLevel, harmonics := fun i => msg.harmonics i }) ∧
      (receiveTHDData st midi).pluginMode = st.pluginMode ∧
      (receiveTHDData st midi).channelId = st.channelId ∧
      (receiveTHDData st midi).midiOutputBuffer = st.midiOutputBuffer) := by
  have hc : ¬ st.pluginMode ≠ PluginMode.MasterBrain := by simp [hmode]
  rw [receiveTHDData, if_neg hc, hdec]
  constructor
  · intro h
    rw [if_neg]
    simp only [not_and]
    intro _
    exact fun h1 h2 => h ⟨h1, h2⟩
  · intro h
    rw [if_pos ⟨rfl, h.1, h.2⟩]
    refine ⟨?_, ?_, rfl, rfl, rfl⟩
    · intro j hj
      simp [hj]
    · intro j hj
      simp [hj]

theorem fromMidiBytes_frameC6 :
    THDDataMessage.fromMidiBytes defaultMessage frameC6 = (msgC6, true) := by
  simp only [THDDataMessage.fromMidiBytes]
  rw [if_neg (by decide), if_neg (by decide), if_neg (by decide)]
  refine Prod.ext ?_ rfl
  show _ = msgC6
  rw [show msgC6 = ⟨3, 0, 0, 0, 0, fun _ => 0⟩ from rfl]
  simp only [THDDataMessage.mk.injEq]
  refine ⟨by decide, by decide, by decide, by decide, by decide, ?_⟩
  funext i
  revert i
  decide

theorem fromMidiBytes_frameC6out :
    THDDataMessage.fromMidiBytes defaultMessage frameC6out = (msgC6out, true) := by
  simp only [THDDataMessage.fromMidiBytes]
  rw [if_neg (by decide), if_neg (by decide), if_neg (by decide)]
  refine Prod.ext ?_ rfl
  show _ = msgC6out
  rw [show msgC6out = ⟨250, 0, 0, 0, 0, fun _ => 0⟩ from rfl]
  simp only [THDDataMessage.mk.injEq]
  refine ⟨by decide, by decide, by decide, by decide, by decide, ?_⟩
  funext i
  revert i
  decide

/-- Witness for C6: a concrete well-formed frame for channel 3 updates slot 3
and leaves slot 0 alone; the out-of-range frame for channel 250 leaves the
whole state unchanged. -/
theorem receiveTHDData_spec_witness :
    stMaster.pluginMode = PluginMode.MasterBrain ∧
    THDDataMessage.fromMidiBytes defaultMessage frameC6 = (msgC6, true) ∧
    ((0 : ℤ) ≤ msgC6.channelId ∧ msgC6.channelId < 8) ∧
    (receiveTHDData stMaster frameC6).channels 3 =
      { stMaster.channels 3 with
          thd := msgC6.thd, thdN := msgC6.thdN, level := msgC6.level,
          peakLevel := msgC6.peakLevel, harmonics := fun i => msgC6.harmonics i } ∧
    (receiveTHDData stMaster frameC6).channels 0 = stMaster.channels 0 ∧
    THDDataMessage.fromMidiBytes defaultMessage frameC6out = (msgC6out, true) ∧
    ¬ ((0 : ℤ) ≤ msgC6out.channelId ∧ msgC6out.channelId < 8) ∧
    receiveTHDData stMaster frameC6out = stMaster :=
  ⟨rfl, fromMidiBytes_frameC6, by decide,
    (((receiveTHDData_spec stMaster frameC6 msgC6 rfl fromMidiBytes_frameC6).2
        (by decide)).2.1 3 (by decide)),
    (((receiveTHDData_spec stMaster frameC6 msgC6 rfl fromMidiBytes_frameC6).2
        (by decide)).1 0 (by decide)),
    fromMidiBytes_frameC6out, by decide,
    ((receiveTHDData_spec stMaster frameC6out msgC6out rfl fromMidiBytes_frameC6out).1
      (by decide))⟩

/-- C7 counterexample: with a single unmuted channel of THD 20, the claimed
unclamped RSS value is `sqrt(20*20/1) = 20`, but `computeMasterTHD` clamps
its result to 10. -/
theorem computeMasterTHD_counterexample :
    (Web.computeMasterTHD [chC7]).thd ≠ Real.sqrt ((chC7.thd * chC7.thd) / 1) := by
  have h1 : (Web.computeMasterTHD [chC7]).thd =
      max 0.001 (min (Real.sqrt ((0 + chC7.thd * chC7.thd) / ((1 : ℕ) : ℝ))) 10) := rfl
  have hthd : chC7.thd = (20 : ℝ) := rfl
  rw [h1, hthd]
  have hs : Real.sqrt ((0 + (20 : ℝ) * 20) / ((1 : ℕ) : ℝ)) = 20 := by
    rw [show ((0 + (20 : ℝ) * 20) / ((1 : ℕ) : ℝ)) = 20 ^ 2 by norm_num]
    exact Real.sqrt_sq (by norm_num)
  have hs2 : Real.sqrt (((20 : ℝ) * 20) / 1) = 20 := by
    rw [show (((20 : ℝ) * 20) / 1) = 20 ^ 2 by norm_num]
    exact Real.sqrt_sq (by norm_num)
  rw [hs, hs2]
  rw [min_eq_right (by norm_num : (10 : ℝ) ≤ 20), max_eq_right (by norm_num : (0.001 : ℝ) ≤ 10)]
  norm_num

/-- C7 amended: `computeMasterTHD` filters to the unmuted channels and
returns `{0, 0, null}` when none remain; otherwise its `thd` (and likewise
`thdN`) is the quadratic mean `sqrt(mean(thd_i * thd_i))` over the filtered
set, clamped into `[0.001, 10]` by `max(0.001, min(_, 10))`. -/
theorem computeMasterTHD_spec (channels : List Web.ChannelData) :
    (channels.filter (fun c => !c.muted) = [] →
      Web.computeMasterTHD channels = { thd := 0, thdN := 0, worstChannel := none }) ∧
    ∀ a rest, channels.filter (fun c => !c.muted) = a :: rest →
      (Web.computeMasterTHD channels).thd =
        max 0.001 (min (Real.sqrt ((((a :: rest).map fun c => c.thd * c.thd).sum) /
          ((a :: rest).length : ℝ))) 10) ∧
      (Web.computeMasterTHD channels).thdN =
        max 0.001 (min (Real.sqrt ((((a :: rest).map fun c => c.thdN * c.thdN).sum) /
          ((a :: rest).length : ℝ))) 10) := by
  constructor
  · intro h
    unfold Web.computeMasterTHD
    rw [h]
  · intro a rest h
    unfold Web.computeMasterTHD
    rw [h]
    constructor
    · show max 0.001 (min (Real.sqrt
          (((a :: rest).foldl (fun acc ch => acc + ch.thd * ch.thd) 0) /
            ((a :: rest).length : ℝ))) 10) = _
      rw [foldl_add_map (fun ch : Web.ChannelData => ch.thd * ch.thd), zero_add]
    · show max 0.001 (min (Real.sqrt
          (((a :: rest).foldl (fun acc ch => acc + ch.thdN * ch.thdN) 0) /
            ((a :: rest).length : ℝ))) 10) = _
      rw [foldl_add_map (fun ch : Web.ChannelData => ch.thdN * ch.thdN), zero_add]

/-- Witness for C7 at one unmuted channel with THD 3 and THD+N 4. -/
theorem computeMasterTHD_spec_witness :
    ([chC7w].filter (fun c => !c.muted) = chC7w :: []) ∧
    (Web.computeMasterTHD [chC7w]).thd =
      max 0.001 (min (Real.sqrt ((((chC7w :: []).map fun c => c.thd * c.thd).sum) /
        ((chC7w :: []).length : ℝ))) 10) ∧
    (Web.computeMasterTHD [chC7w]).thdN =
      max 0.001 (min (Real.sqrt ((((chC7w :: []).map fun c => c.thdN * c.thdN).sum) /
        ((chC7w :: []).length : ℝ))) 10) :=
  ⟨rfl, (computeMasterTHD_spec [chC7w]).2 chC7w [] rfl⟩

/-- C4 (code bug): the code has no `sampleRate <= 0` short-circuit at all.
Evaluating it at the failing input `sampleRate = -1` with a constant
full-scale block: the fundamental/harmonic fields do come out zero (the
search loop never runs), but `level` is the RMS of the block, 1, not 0 - so
the all-zero return the claim (and spec sections 4.2 and 7) demand does not
happen.  At `sampleRate = 0` the program does not return at all: the
`minBin`/`maxBin` casts are undefined (pinned to `INT_MIN` in this model)
and the search loop reads `magnitude[INT_MIN]` out of bounds. -/
theorem analyze_no_sampleRate_guard :
    (analyze 8 magZero audioOne 8 (-1)).level = 1 ∧
    (analyze 8 magZero audioOne 8 (-1)).level ≠ 0 ∧
    (analyze 8 magZero audioOne 8 (-1)).fundamentalFrequency = 0 ∧
    (analyze 8 magZero audioOne 8 (-1)).thd = 0 ∧
    (analyze 8 magZero audioOne 8 (-1)).thdN = 0 ∧
    (analyze 8 magZero audioOne 8 (-1)).harmonics = List.replicate 7 0 ∧
    (analyze 8 magZero audioOne 8 (-1)).noiseFloor = 0 := by
  have hff0 : ffOf magZero 8 (-1) = 0 :=
    ffOf_zero_of_nonpos magZero 8 (by norm_num)
  have hg : ¬ (0 < ffOf magZero 8 (-1) ∧ 1 / 100000000 < levelSqOf audioOne 8) := by
    rw [hff0]
    rintro ⟨h1, _⟩
    exact lt_irrefl 0 h1
  rw [analyze_eq_else 8 magZero audioOne 8 (-1) (by norm_num) hg]
  have hls : levelSqOf audioOne 8 = 1 := by
    norm_num [levelSqOf, sumSquares, audioOne, List.range_succ]
  have hlvl : Real.sqrt ((levelSqOf audioOne 8 : ℚ) : ℝ) = 1 := by
    rw [hls]
    norm_num
  exact ⟨hlvl, by rw [hlvl]; norm_num, hff0, rfl, rfl, rfl, rfl⟩

/-- C3 amended: the fundamental search runs over exactly the bins `i` with
`minBin <= i`, `i <= maxBin` and `i < fftSize/2` where
`minBin = trunc(20 N / sampleRate)` and `maxBin = trunc(2000 N / sampleRate)`
are NOT clamped up to 1 (bin 0, DC, is searched whenever
`sampleRate > 20 N`); over that range the first strictly-greatest magnitude
wins, starting from `maxMag = 0`, and
`fundamentalFrequency = fundamentalBin * sampleRate / fftSize`. -/
theorem fundamentalSearch_spec (fftSize : ℕ) (mag : ℤ → ℚ) (audioBuffer : ℕ → ℚ)
    (bufferSize : ℕ) (sampleRate : ℚ) (hbs : ¬ bufferSize < fftSize)
    (_hsr : 0 < sampleRate) :
    (analyze fftSize mag audioBuffer bufferSize sampleRate).fundamentalFrequency =
      ((searchOf mag fftSize sampleRate).2 : ℚ) * sampleRate / fftSize ∧
    (∀ i : ℤ, i ∈ searchIndices (minBinOf fftSize sampleRate) (maxBinOf fftSize sampleRate)
        ((fftSize / 2 : ℕ) : ℤ) ↔
      minBinOf fftSize sampleRate ≤ i ∧ i ≤ maxBinOf fftSize sampleRate ∧
        i < ((fftSize / 2 : ℕ) : ℤ)) ∧
    ((searchOf mag fftSize sampleRate = (0, 0) ∧
        ∀ i ∈ searchIndices (minBinOf fftSize sampleRate) (maxBinOf fftSize sampleRate)
          ((fftSize / 2 : ℕ) : ℤ), mag i ≤ 0) ∨
      ((searchOf mag fftSize sampleRate).2 ∈
          searchIndices (minBinOf fftSize sampleRate) (maxBinOf fftSize sampleRate)
            ((fftSize / 2 : ℕ) : ℤ) ∧
        (searchOf mag fftSize sampleRate).1 = mag (searchOf mag fftSize sampleRate).2 ∧
        0 < (searchOf mag fftSize sampleRate).1 ∧
        (∀ i ∈ searchIndices (minBinOf fftSize sampleRate) (maxBinOf fftSize sampleRate)
          ((fftSize / 2 : ℕ) : ℤ), mag i ≤ (searchOf mag fftSize sampleRate).1) ∧
        ∀ i ∈ searchIndices (minBinOf fftSize sampleRate) (maxBinOf fftSize sampleRate)
          ((fftSize / 2 : ℕ) : ℤ), i < (searchOf mag fftSize sampleRate).2 →
            mag i < (searchOf mag fftSize sampleRate).1)) :=
  ⟨analyze_fundamentalFrequency fftSize mag audioBuffer bufferSize sampleRate hbs,
    fun _ => mem_searchIndices,
    fundamentalSearch_cases mag (minBinOf fftSize sampleRate) (maxBinOf fftSize sampleRate)
      ((fftSize / 2 : ℕ) : ℤ)⟩

/-- Witness for the amended C3 at a concrete spectrum. -/
theorem fundamentalSearch_spec_witness :
    (¬ (8 : ℕ) < 8) ∧ (0 : ℚ) < 400 ∧
    (analyze 8 magC3 audioOne 8 400).fundamentalFrequency =
      ((searchOf magC3 8 400).2 : ℚ) * 400 / 8 :=
  ⟨by norm_num, by norm_num,
    (fundamentalSearch_spec 8 magC3 audioOne 8 400 (by norm_num) (by norm_num)).1⟩

/-- C3 counterexample: at `fftSize = 8`, `sampleRate = 400` the truncated
`minBin` is 0, the DC bin holds the largest magnitude and wins, and the
result frequency is 0; the specification's clamped search (bins `[1, 3]`)
would pick bin 1 and yield 50. -/
theorem fundamentalSearch_counterexample :
    (analyze 8 magC3 audioOne 8 400).fundamentalFrequency = 0 ∧
    claimClampedFF magC3 8 400 = 50 ∧
    (analyze 8 magC3 audioOne 8 400).fundamentalFrequency ≠ claimClampedFF magC3 8 400 := by
  have h1 : (analyze 8 magC3 audioOne 8 400).fundamentalFrequency = ffOf magC3 8 400 :=
    analyze_fundamentalFrequency 8 magC3 audioOne 8 400 (by norm_num)
  have hminB : minBinOf 8 400 = 0 := by norm_num [minBinOf, ratTrunc]
  have hmaxB : maxBinOf 8 400 = 40 := by norm_num [maxBinOf, ratTrunc]
  have h2 : ffOf magC3 8 400 = 0 := by
    have h3 : searchOf magC3 8 400 = (5, 0) := by
      rw [searchOf, hminB, hmaxB, fundamentalSearch,
        show searchIndices 0 40 ((8 / 2 : ℕ) : ℤ) = [0, 1, 2, 3] from by decide]
      norm_num [magC3, List.foldl_cons, List.foldl_nil]
    rw [ffOf, h3]
    norm_num
  have h4 : claimClampedFF magC3 8 400 = 50 := by
    have h5 : claimClampedSearch magC3 8 400 = (1, 1) := by
      rw [claimClampedSearch,
        show clampBin 8 ⌊20 * ((8 : ℕ) : ℚ) / 400⌋ = 1 from by norm_num [clampBin],
        show clampBin 8 ⌊2000 * ((8 : ℕ) : ℚ) / 400⌋ = 3 from by norm_num [clampBin],
        fundamentalSearch, show searchIndices 1 3 ((8 / 2 : ℕ) : ℤ) = [1, 2, 3] from by decide]
      norm_num [magC3, List.foldl_cons, List.foldl_nil]
    rw [claimClampedFF, h5]
    norm_num
  exact ⟨h1.trans h2, h4, by rw [h1.trans h2, h4]; norm_num⟩

/-- C8 amended: the FFT path applies no clamping to `thd`/`thdN`; both are
always nonnegative (quotients of square roots by the nonnegative running
maximum), but they can exceed 100 (see the counterexample). -/
theorem analyze_thd_nonneg (fftSize : ℕ) (mag : ℤ → ℚ) (audioBuffer : ℕ → ℚ)
    (bufferSize : ℕ) (sampleRate : ℚ) :
    0 ≤ (analyze fftSize mag audioBuffer bufferSize sampleRate).thd ∧
    0 ≤ (analyze fftSize mag audioBuffer bufferSize sampleRate).thdN := by
  by_cases hbs : bufferSize < fftSize
  · rw [analyze_eq_short _ _ _ _ _ hbs]
    exact ⟨le_refl 0, le_refl 0⟩
  · by_cases hg : 0 < ffOf mag fftSize sampleRate ∧
        1 / 100000000 < levelSqOf audioBuffer bufferSize
    · rw [analyze_eq_then _ _ _ _ _ hbs hg]
      have hm : (0 : ℚ) ≤ (searchOf mag fftSize sampleRate).1 := by
        rcases fundamentalSearch_cases mag (minBinOf fftSize sampleRate)
            (maxBinOf fftSize sampleRate) ((fftSize / 2 : ℕ) : ℤ) with ⟨h0, _⟩ | ⟨_, _, hpos, _⟩
        · rw [searchOf, h0]
        · exact le_of_lt hpos
      have hmr : (0 : ℝ) ≤ (((searchOf mag fftSize sampleRate).1 : ℚ) : ℝ) := by
        exact_mod_cast hm
      have hnoise : (0 : ℝ) ≤ noiseLevelOf mag (ffOf mag fftSize sampleRate) sampleRate
          fftSize (minBinOf fftSize sampleRate) := by
        rw [noiseLevelOf]
        split
        · exact Real.sqrt_nonneg _
        · exact le_refl 0
      constructor
      · exact mul_nonneg (div_nonneg (Real.sqrt_nonneg _) hmr) (by norm_num)
      · exact mul_nonneg
          (div_nonneg (add_nonneg (Real.sqrt_nonneg _) hnoise) hmr) (by norm_num)
    · rw [analyze_eq_else _ _ _ _ _ hbs hg]
      exact ⟨le_refl 0, le_refl 0⟩

/-- C8 counterexample: a spectrum whose second and third harmonics (magnitude
9 each) outweigh the fundamental (magnitude 10) makes
`thd = sqrt(162)/10*100 > 100` - the FFT path does not clamp to 100. -/
theorem analyze_thd_exceeds_100 :
    100 < (analyze 8 magC8 audioOne 8 400).thd := by
  have hminB : minBinOf 8 400 = 0 := by norm_num [minBinOf, ratTrunc]
  have hmaxB : maxBinOf 8 400 = 40 := by norm_num [maxBinOf, ratTrunc]
  have hsearch : searchOf magC8 8 400 = (10, 1) := by
    rw [searchOf, hminB, hmaxB, fundamentalSearch,
      show searchIndices 0 40 ((8 / 2 : ℕ) : ℤ) = [0, 1, 2, 3] from by decide]
    norm_num [magC8, List.foldl_cons, List.foldl_nil]
  have hff : ffOf magC8 8 400 = 50 := by
    rw [ffOf, hsearch]
    norm_num
  have hls : levelSqOf audioOne 8 = 1 := by
    norm_num [levelSqOf, sumSquares, audioOne, List.range_succ]
  have hg : 0 < ffOf magC8 8 400 ∧ 1 / 100000000 < levelSqOf audioOne 8 := by
    rw [hff, hls]
    norm_num
  rw [analyze_eq_then 8 magC8 audioOne 8 400 (by norm_num) hg]
  show (100 : ℝ) < Real.sqrt (((harmonicPass magC8 (ffOf magC8 8 400) 400 8).2 : ℚ) : ℝ) /
    (((searchOf magC8 8 400).1 : ℚ) : ℝ) * 100
  have hharm : (harmonicPass magC8 (ffOf magC8 8 400) 400 8).2 = 162 := by
    rw [hff, harmonicPass,
      show List.range' 2 7 = [2, 3, 4, 5, 6, 7, 8] from rfl]
    norm_num [magC8, ratTrunc, List.foldl_cons, List.foldl_nil]
  rw [hharm, hsearch]
  have hsqrt : (10 : ℝ) < Real.sqrt (((162 : ℚ) : ℝ)) := by
    rw [Real.lt_sqrt (by norm_num)]
    norm_num
  have h10 : ((((10 : ℚ), (1 : ℤ)).1 : ℚ) : ℝ) = 10 := by norm_num
  rw [h10]
  have hfinal : Real.sqrt (((162 : ℚ) : ℝ)) / 10 * 100 = Real.sqrt (((162 : ℚ) : ℝ)) * 10 := by
    ring
  rw [hfinal]
  nlinarith [hsqrt]

theorem searchOf_def (mag : ℤ → ℚ) (fftSize : ℕ) (sampleRate : ℚ) :
    searchOf mag fftSize sampleRate =
      fundamentalSearch mag (minBinOf fftSize sampleRate) (maxBinOf fftSize sampleRate)
        ((fftSize / 2 : ℕ) : ℤ) := rfl

theorem harmonicPass_fst (mag : ℤ → ℚ) (ff sr : ℚ) (N : ℕ) :
    (harmonicPass mag ff sr N).1 =
      (List.range 7).map fun k =>
        if ratTrunc (((k + 2 : ℕ) : ℚ) * ff * N / sr) < ((N / 2 : ℕ) : ℤ) then
          mag (ratTrunc (((k + 2 : ℕ) : ℚ) * ff * N / sr))
        else 0 := by
  rw [harmonicPass_closed]

theorem harmonicPass_snd (mag : ℤ → ℚ) (ff sr : ℚ) (N : ℕ) :
    (harmonicPass mag ff sr N).2 =
      ∑ h ∈ (Finset.Icc 2 8 : Finset ℕ),
        if ratTrunc ((h : ℚ) * ff * N / sr) < ((N / 2 : ℕ) : ℤ) then
          mag (ratTrunc ((h : ℚ) * ff * N / sr)) * mag (ratTrunc ((h : ℚ) * ff * N / sr))
        else 0 := by
  rw [harmonicPass_closed]

/-- With a positive fundamental bin `b`, the bin formula of the harmonic
loop collapses to `h * b` exactly (no truncation or rounding error). -/
theorem harmonic_arg_eq (mag : ℤ → ℚ) (fftSize : ℕ) (sampleRate : ℚ) (h : ℕ)
    (hNQ : (fftSize : ℚ) ≠ 0) (hsrne : sampleRate ≠ 0) :
    (h : ℚ) * ffOf mag fftSize sampleRate * fftSize / sampleRate =
      (((h : ℤ) * (searchOf mag fftSize sampleRate).2 : ℤ) : ℚ) := by
  rw [ffOf]
  push_cast
  field_simp
  ring

/-- C1: when a fundamental was detected (`fundamentalFrequency > 0`) and the
level threshold passed (`level > 1e-4`), the harmonic stage records, for
each `h` in 2..8 with `harmonicBin = round(h * fundamentalFrequency * N /
sampleRate)`, the magnitude `mag[harmonicBin]` into `harmonics[h-2]` when
`1 <= harmonicBin < N/2` and 0 otherwise, accumulates the squares over the
valid bins only, and returns `thd = sqrt(harmonicSumSquares) / maxMag * 100`
with `maxMag` the fundamental bin's magnitude.  (In exact arithmetic the
code's truncated bin equals the specification's rounded bin, and the
lower bound `1 <= harmonicBin` is automatic, so code and claim agree.) -/
theorem analyze_harmonics_thd_spec (fftSize : ℕ) (mag : ℤ → ℚ) (audioBuffer : ℕ → ℚ)
    (bufferSize : ℕ) (sampleRate : ℚ)
    (hff : 0 < (analyze fftSize mag audioBuffer bufferSize sampleRate).fundamentalFrequency)
    (hlv : (1 / 10000 : ℝ) < (analyze fftSize mag audioBuffer bufferSize sampleRate).level) :
    (analyze fftSize mag audioBuffer bufferSize sampleRate).harmonics =
      ((List.range 7).map fun k =>
        if 1 ≤ round (((k + 2 : ℕ) : ℚ) *
              (analyze fftSize mag audioBuffer bufferSize sampleRate).fundamentalFrequency *
              fftSize / sampleRate) ∧
            round (((k + 2 : ℕ) : ℚ) *
              (analyze fftSize mag audioBuffer bufferSize sampleRate).fundamentalFrequency *
              fftSize / sampleRate) < ((fftSize / 2 : ℕ) : ℤ) then
          mag (round (((k + 2 : ℕ) : ℚ) *
            (analyze fftSize mag audioBuffer bufferSize sampleRate).fundamentalFrequency *
            fftSize / sampleRate))
        else 0) ∧
    (analyze fftSize mag audioBuffer bufferSize sampleRate).thd =
      Real.sqrt (((∑ h ∈ (Finset.Icc 2 8 : Finset ℕ),
          if 1 ≤ round ((h : ℚ) *
                (analyze fftSize mag audioBuffer bufferSize sampleRate).fundamentalFrequency *
                fftSize / sampleRate) ∧
              round ((h : ℚ) *
                (analyze fftSize mag audioBuffer bufferSize sampleRate).fundamentalFrequency *
                fftSize / sampleRate) < ((fftSize / 2 : ℕ) : ℤ) then
            mag (round ((h : ℚ) *
                (analyze fftSize mag audioBuffer bufferSize sampleRate).fundamentalFrequency *
                fftSize / sampleRate)) *
              mag (round ((h : ℚ) *
                (analyze fftSize mag audioBuffer bufferSize sampleRate).fundamentalFrequency *
                fftSize / sampleRate))
          else 0 : ℚ)) : ℝ) /
        ((mag (round
            ((analyze fftSize mag audioBuffer bufferSize sampleRate).fundamentalFrequency *
              fftSize / sampleRate)) : ℚ) : ℝ) * 100 := by
  by_cases hbs : bufferSize < fftSize
  · exfalso
    rw [analyze_eq_short _ _ _ _ _ hbs] at hlv
    exact absurd (hlv : (1 / 10000 : ℝ) < 0) (by norm_num)
  rw [analyze_fundamentalFrequency _ _ _ _ _ hbs] at hff ⊢
  rw [analyze_level _ _ _ _ _ hbs] at hlv
  have hlq : (1 / 100000000 : ℚ) < levelSqOf audioBuffer bufferSize := sqrt_gt_milli_iff.mp hlv
  rw [analyze_eq_then _ _ _ _ _ hbs ⟨hff, hlq⟩]
  have hNpos : 0 < fftSize := by
    by_contra hN0
    have h0 : fftSize = 0 := by omega
    rw [ffOf, h0] at hff
    norm_num at hff
  have hsrpos : 0 < sampleRate := by
    rcases lt_trichotomy sampleRate 0 with h | h | h
    · rw [ffOf_zero_of_nonpos mag fftSize (le_of_lt h)] at hff
      exact absurd hff (lt_irrefl 0)
    · rw [ffOf, h] at hff
      norm_num at hff
    · exact h
  have hNQ : (fftSize : ℚ) ≠ 0 := Nat.cast_ne_zero.mpr (by omega)
  have hsrne : sampleRate ≠ 0 := ne_of_gt hsrpos
  have hb : 1 ≤ (searchOf mag fftSize sampleRate).2 := by
    have hq : 0 < ((searchOf mag fftSize sampleRate).2 : ℚ) := by
      by_contra hle
      push_neg at hle
      have h1 : ((searchOf mag fftSize sampleRate).2 : ℚ) * sampleRate ≤ 0 := by
        nlinarith
      have h2 : ((searchOf mag fftSize sampleRate).2 : ℚ) * sampleRate / fftSize ≤ 0 :=
        div_nonpos_iff.mpr (Or.inr ⟨h1, by positivity⟩)
      rw [ffOf] at hff
      exact absurd hff (not_lt.mpr h2)
    have hz : 0 < (searchOf mag fftSize sampleRate).2 := by exact_mod_cast hq
    omega
  have hmagb : (searchOf mag fftSize sampleRate).1 =
      mag (searchOf mag fftSize sampleRate).2 := by
    rcases fundamentalSearch_cases mag (minBinOf fftSize sampleRate)
        (maxBinOf fftSize sampleRate) ((fftSize / 2 : ℕ) : ℤ) with ⟨h0, _⟩ | ⟨_, heq, _, _⟩
    · exfalso
      rw [ffOf, searchOf_def, h0] at hff
      norm_num at hff
    · rw [searchOf_def]
      exact heq
  have hbin : ∀ h : ℕ, round ((h : ℚ) * ffOf mag fftSize sampleRate * fftSize / sampleRate) =
      (h : ℤ) * (searchOf mag fftSize sampleRate).2 := by
    intro h
    rw [harmonic_arg_eq mag fftSize sampleRate h hNQ hsrne, round_intCast]
  have hbint : ∀ h : ℕ, ratTrunc ((h : ℚ) * ffOf mag fftSize sampleRate * fftSize / sampleRate) =
      (h : ℤ) * (searchOf mag fftSize sampleRate).2 := by
    intro h
    rw [harmonic_arg_eq mag fftSize sampleRate h hNQ hsrne, ratTrunc_intCast]
  have hbin1 : round (ffOf mag fftSize sampleRate * fftSize / sampleRate) =
      (searchOf mag fftSize sampleRate).2 := by
    have h1 := hbin 1
    push_cast at h1
    simpa using h1
  have hge1 : ∀ h : ℕ, 2 ≤ h → (1 : ℤ) ≤ (h : ℤ) * (searchOf mag fftSize sampleRate).2 := by
    intro h hh
    have h2 : (2 : ℤ) ≤ (h : ℤ) := by exact_mod_cast hh
    nlinarith [hb]
  constructor
  · show (harmonicPass mag (ffOf mag fftSize sampleRate) sampleRate fftSize).1 = _
    rw [harmonicPass_fst]
    congr 1
    funext k
    rw [hbint (k + 2), hbin (k + 2)]
    have h1 := hge1 (k + 2) (by omega)
    simp only [h1, true_and]
  · show Real.sqrt
        (((harmonicPass mag (ffOf mag fftSize sampleRate) sampleRate fftSize).2 : ℚ) : ℝ) /
        (((searchOf mag fftSize sampleRate).1 : ℚ) : ℝ) * 100 = _
    rw [harmonicPass_snd, hmagb, hbin1]
    have hsum : (∑ h ∈ (Finset.Icc 2 8 : Finset ℕ),
        if ratTrunc ((h : ℚ) * ffOf mag fftSize sampleRate * fftSize / sampleRate) <
            ((fftSize / 2 : ℕ) : ℤ) then
          mag (ratTrunc ((h : ℚ) * ffOf mag fftSize sampleRate * fftSize / sampleRate)) *
            mag (ratTrunc ((h : ℚ) * ffOf mag fftSize sampleRate * fftSize / sampleRate))
        else 0) =
        ∑ h ∈ (Finset.Icc 2 8 : Finset ℕ),
          if 1 ≤ round ((h : ℚ) * ffOf mag fftSize sampleRate * fftSize / sampleRate) ∧
              round ((h : ℚ) * ffOf mag fftSize sampleRate * fftSize / sampleRate) <
                ((fftSize / 2 : ℕ) : ℤ) then
            mag (round ((h : ℚ) * ffOf mag fftSize sampleRate * fftSize / sampleRate)) *
              mag (round ((h : ℚ) * ffOf mag fftSize sampleRate * fftSize / sampleRate))
          else 0 := by
      apply Finset.sum_congr rfl
      intro h hh
      rw [hbint h, hbin h]
      have hh2 : 2 ≤ h := (Finset.mem_Icc.mp hh).1
      have h1 := hge1 h hh2
      simp only [h1, true_and]
    rw [hsum]

/-- Witness for C1: a spectrum with fundamental bin 1 (magnitude 3) at
`fftSize = 8`, `sampleRate = 400` satisfies both guards. -/
theorem analyze_harmonics_thd_spec_witness :
    (0 < (analyze 8 magW1 audioOne 8 400).fundamentalFrequency) ∧
    ((1 / 10000 : ℝ) < (analyze 8 magW1 audioOne 8 400).level) ∧
    (analyze 8 magW1 audioOne 8 400).harmonics =
      ((List.range 7).map fun k =>
        if 1 ≤ round (((k + 2 : ℕ) : ℚ) *
              (analyze 8 magW1 audioOne 8 400).fundamentalFrequency * ((8 : ℕ) : ℚ) / 400) ∧
            round (((k + 2 : ℕ) : ℚ) *
              (analyze 8 magW1 audioOne 8 400).fundamentalFrequency * ((8 : ℕ) : ℚ) / 400) <
              (((8 : ℕ) / 2 : ℕ) : ℤ) then
          magW1 (round (((k + 2 : ℕ) : ℚ) *
            (analyze 8 magW1 audioOne 8 400).fundamentalFrequency * ((8 : ℕ) : ℚ) / 400))
        else 0) := by
  have hsearch : searchOf magW1 8 400 = (3, 1) := by
    rw [searchOf, show minBinOf 8 400 = 0 from by norm_num [minBinOf, ratTrunc],
      show maxBinOf 8 400 = 40 from by norm_num [maxBinOf, ratTrunc], fundamentalSearch,
      show searchIndices 0 40 ((8 / 2 : ℕ) : ℤ) = [0, 1, 2, 3] from by decide]
    norm_num [magW1, List.foldl_cons, List.foldl_nil]
  have hffc : (analyze 8 magW1 audioOne 8 400).fundamentalFrequency = 50 := by
    rw [analyze_fundamentalFrequency _ _ _ _ _ (by norm_num), ffOf, hsearch]
    norm_num
  have hlvc : (analyze 8 magW1 audioOne 8 400).level = 1 := by
    rw [analyze_level _ _ _ _ _ (by norm_num),
      show levelSqOf audioOne 8 = 1 from by
        norm_num [levelSqOf, sumSquares, audioOne, List.range_succ]]
    norm_num
  refine ⟨by rw [hffc]; norm_num, by rw [hlvc]; norm_num, ?_⟩
  exact (analyze_harmonics_thd_spec 8 magW1 audioOne 8 400
    (by rw [hffc]; norm_num) (by rw [hlvc]; norm_num)).1
